import Mathlib

/-!
Verification of the YSA Signal processed-recording core.

The channel-discovery functions (`fuzzy_match`, `filter_channels`, the sorted
channel list) and the update-check guard (`check_for_updates`) are translated
directly from the sources (`ysa_signal.py`, `__init__.py`).  The persistence
and channel-access layer (`save_processed_data`, `load_processed_data`,
`get_channel_data`, construction-time validation) lives in the external
`helper_functions` module that is not part of the sources, so those
definitions are modelled from the specification.

Strings are modelled as `List Char` (Python strings over the ASCII range that
coordinate keys and queries use); real-valued samples and timestamps are
modelled as `ℚ`.
-/

/-- A channel coordinate: a pair of non-negative integers `(row, col)`
identifying one electrode position on the grid. -/
structure Coord where
  row : Nat
  col : Nat
deriving DecidableEq

/-- The compact search key of a coordinate, `f"{row}{col}"` in the source:
the decimal digits of the row immediately followed by the decimal digits of
the column, with no delimiter. -/
def channelKey (c : Coord) : List Char :=
  Nat.toDigits 10 c.row ++ Nat.toDigits 10 c.col

/-- Python `str.lower()` restricted to the ASCII range: lower-case each
character (`Char.toLower` maps `A`..`Z` to `a`..`z` and fixes everything
else, exactly as Python does on ASCII). -/
def str_lower (s : List Char) : List Char :=
  s.map Char.toLower

/-- Translation of `YSASignalGUI.fuzzy_match`: walk the text once, advancing
through the pattern whenever the current text character equals the next
pattern character; succeed iff the whole pattern was consumed. -/
def fuzzy_match : List Char → List Char → Bool
  | pattern, [] => pattern.isEmpty
  | pattern, c :: rest =>
    match pattern with
    | [] => fuzzy_match [] rest
    | p :: ps => if c = p then fuzzy_match ps rest else fuzzy_match (p :: ps) rest

/-- The per-candidate test inside `YSASignalGUI.filter_channels`: a candidate
is kept when the (already lower-cased) search text is empty or fuzzy-matches
the candidate's key. -/
def channel_matches (search_text : List Char) (c : Coord) : Bool :=
  search_text.isEmpty || fuzzy_match search_text (channelKey c)

/-- Translation of `YSASignalGUI.filter_channels`: lower-case the query, then
keep, in order, the channels whose key matches (an empty query keeps
everything). -/
def filter_channels (all_channels : List Coord) (query : List Char) : List Coord :=
  all_channels.filter (channel_matches (str_lower query))

/-- Python tuple comparison `(row, col) <= (row, col)`: lexicographic order
on coordinates, as a boolean relation for sorting. -/
def coord_le (a b : Coord) : Bool :=
  decide (a.row < b.row) || (a.row == b.row && decide (a.col ≤ b.col))

/-- Translation of the channel-list population in
`YSASignalGUI.load_viewer_file`: `self.all_channels =
sorted(self.viewer_data.active_channels)`, an ascending stable sort by
`(row, col)`. -/
def all_channels_of (active : List Coord) : List Coord :=
  active.mergeSort coord_le

/-- A character in `0`..`9` (code points 48..57). -/
def isDigitC (ch : Char) : Prop :=
  48 ≤ ch.toNat ∧ ch.toNat ≤ 57

instance (ch : Char) : Decidable (isDigitC ch) :=
  inferInstanceAs (Decidable (_ ∧ _))

/-- One detected event: a `(start, end)` pair of timestamps in seconds. -/
structure EventInterval where
  start : ℚ
  stop : ℚ
deriving DecidableEq

/-- One channel's data: its signal samples and its three event interval
sets, the `signal` / `SzTimes` / `SETimes` / `DischargeTimes` fields the
viewer reads from a loaded channel. -/
structure ChannelRecord where
  signal : List ℚ
  SzTimes : List EventInterval
  SETimes : List EventInterval
  DischargeTimes : List EventInterval
deriving DecidableEq

/-- Modelled from the spec: the `ProcessedRecording` aggregate produced by
the external `helper_functions` module (absent from the sources) — sampling
rate, recording length, shared time vector, and the mapping from active
coordinates to channel records (an association list; `active_channels` is
its key list). -/
structure ProcessedRecording where
  sampling_rate : ℚ
  recording_length : ℚ
  time_vector : List ℚ
  channels : List (Coord × ChannelRecord)
deriving DecidableEq

/-- The active-channel coordinates: exactly the keys of the channel map. -/
def ProcessedRecording.active_channels (R : ProcessedRecording) : List Coord :=
  R.channels.map Prod.fst

/-- Modelled from the spec (§3, §4.1): validity of a processed recording —
positive sampling rate and recording length, no duplicate active
coordinates, and every channel's signal no longer than the time vector. -/
def ProcessedRecording.Valid (R : ProcessedRecording) : Prop :=
  0 < R.sampling_rate ∧ 0 < R.recording_length ∧
    R.active_channels.Nodup ∧
    ∀ p ∈ R.channels, p.2.signal.length ≤ R.time_vector.length

instance (R : ProcessedRecording) : Decidable R.Valid :=
  inferInstanceAs (Decidable (_ ∧ _ ∧ _ ∧ _))

/-- The error taxonomy of the persistence and validation layer (spec §7). -/
inductive YsaError where
  | DataIntegrityError
  | CorruptFileError
deriving DecidableEq

/-- Modelled from the spec (§4.1): construction / post-load validation in the
external `helper_functions` module (absent from the sources); any violation
of the §3 invariants fails with `DataIntegrityError`. -/
def validate_recording (R : ProcessedRecording) : Except YsaError Unit :=
  if R.Valid then Except.ok () else Except.error YsaError.DataIntegrityError

/-- One per-channel group of the persisted container: the signal and three
two-column `(start, end)` tables. -/
structure ChannelGroup where
  signal : List ℚ
  SzTimes : List (ℚ × ℚ)
  SETimes : List (ℚ × ℚ)
  DischargeTimes : List (ℚ × ℚ)
deriving DecidableEq

/-- The logical schema of the persisted container (spec §6): the scalar
fields, the time vector, the active-channel list, and one group per channel
keyed by its coordinate. -/
structure Container where
  sampling_rate : ℚ
  recording_length : ℚ
  time_vector : List ℚ
  active_channels : List Coord
  groups : List (Coord × ChannelGroup)
deriving DecidableEq

/-- An event interval as one `(start, end)` row of a persisted table. -/
def interval_to_row (iv : EventInterval) : ℚ × ℚ :=
  (iv.start, iv.stop)

/-- Rebuild an event interval from a persisted `(start, end)` row. -/
def row_to_interval (r : ℚ × ℚ) : EventInterval :=
  ⟨r.1, r.2⟩

/-- Serialize one channel record into its container group. -/
def group_of_record (rec : ChannelRecord) : ChannelGroup :=
  ⟨rec.signal, rec.SzTimes.map interval_to_row, rec.SETimes.map interval_to_row,
    rec.DischargeTimes.map interval_to_row⟩

/-- Rebuild one channel record from its container group. -/
def record_of_group (g : ChannelGroup) : ChannelRecord :=
  ⟨g.signal, g.SzTimes.map row_to_interval, g.SETimes.map row_to_interval,
    g.DischargeTimes.map row_to_interval⟩

/-- Modelled from the spec (§4.2): `save_processed_data` of the external
`helper_functions` module (absent from the sources) — write every field of
the recording, and one group per active channel, into the container. -/
def save_processed_data (R : ProcessedRecording) : Container :=
  ⟨R.sampling_rate, R.recording_length, R.time_vector, R.active_channels,
    R.channels.map (fun p => (p.1, group_of_record p.2))⟩

/-- Modelled from the spec (§4.2): `load_processed_data` of the external
`helper_functions` module (absent from the sources) — look up the group of
every listed active channel (`CorruptFileError` when a listed channel has no
group), rebuild the recording in the persisted order, and run post-load
validation (`DataIntegrityError` on failure). -/
def load_processed_data (f : Container) : Except YsaError ProcessedRecording :=
  match f.active_channels.mapM (fun c =>
      match f.groups.find? (fun p => p.1 == c) with
      | none => Except.error YsaError.CorruptFileError
      | some p => Except.ok (c, record_of_group p.2)) with
  | Except.error e => Except.error e
  | Except.ok chans =>
    match validate_recording ⟨f.sampling_rate, f.recording_length, f.time_vector, chans⟩ with
    | Except.ok _ => Except.ok ⟨f.sampling_rate, f.recording_length, f.time_vector, chans⟩
    | Except.error e => Except.error e

/-- Modelled from the spec (§4.3): `get_channel_data` of the external
`helper_functions` module (absent from the sources) — return the channel
record at `(row, col)`, or `none` when the coordinate is not active; a total
function, absence is a normal return value. -/
def get_channel_data (R : ProcessedRecording) (row col : Nat) : Option ChannelRecord :=
  (R.channels.find? (fun p => p.1 == Coord.mk row col)).map Prod.snd

/-- The outcome of the PyPI version request made by the update check: a
latest-version string, or an exception (offline, timeout, malformed
response, failed write to stderr — anything raised inside the guarded
block). -/
inductive NetOutcome where
  | ok (latest_version : List Char)
  | exn
deriving DecidableEq

/-- The body of the `try` block of `_check_for_updates` in `__init__.py`:
fetch the latest version and report whether an update banner is printed
(versions differ); any exception escapes as `Except.error`. -/
def update_check_body (current_version : List Char) (net : NetOutcome) : Except Unit Bool :=
  match net with
  | NetOutcome.exn => Except.error ()
  | NetOutcome.ok latest => Except.ok (latest != current_version)

/-- Translation of `_check_for_updates` in `__init__.py`: return immediately
when `_update_check_done` is already set; otherwise set the flag, run the
guarded body, and swallow any exception (`except Exception: pass`).  The
result is `(new flag, whether the guarded body ran, whether the banner was
printed)` — note the result type has no error component: every exception
path of the source is caught. -/
def check_for_updates (done : Bool) (current_version : List Char) (net : NetOutcome) :
    Bool × Bool × Bool :=
  if done then (done, false, false)
  else
    match update_check_body current_version net with
    | Except.ok printed => (true, true, printed)
    | Except.error _ => (true, true, false)

/-- Run a sequence of update-check invocations threading the
`_update_check_done` flag, returning the final flag and how many times the
guarded body ran. -/
def run_update_checks (current_version : List Char) : Bool → List NetOutcome → Bool × Nat
  | done, [] => (done, 0)
  | done, net :: rest =>
    let r := check_for_updates done current_version net
    let rest_result := run_update_checks current_version r.1 rest
    (rest_result.1, (if r.2.1 then 1 else 0) + rest_result.2)

/-- A small concrete valid recording used to witness the round-trip
theorem: one active channel `(3, 4)` with a two-sample signal and one
seizure interval. -/
def roundtripSample : ProcessedRecording :=
  ⟨1000, 2, [0, 1/1000],
    [(⟨3, 4⟩, ⟨[1, 2], [⟨1/2, 1⟩], [], []⟩)]⟩

/-- A concrete recording used to witness the absent-channel theorem: only
channel `(3, 4)` is active. -/
def absenceSample : ProcessedRecording :=
  ⟨1000, 2, [0, 1/1000],
    [(⟨3, 4⟩, ⟨[1, 2], [], [], []⟩)]⟩

/-- A concrete recording whose single channel has exactly as many samples
as the time vector (the valid boundary case). -/
def boundarySampleOk : ProcessedRecording :=
  ⟨1000, 2, [0, 1/1000],
    [(⟨3, 4⟩, ⟨[1, 2], [], [], []⟩)]⟩

/-- A concrete recording whose single channel has more samples than the
time vector (the invalid case). -/
def boundarySampleBad : ProcessedRecording :=
  ⟨1000, 2, [0, 1/1000],
    [(⟨3, 4⟩, ⟨[1, 2, 3], [], [], []⟩)]⟩

theorem fuzzy_match_iff_sublist (p t : List Char) : fuzzy_match p t = true ↔ List.Sublist p t := by
  induction t generalizing p with
  | nil =>
    cases p with
    | nil => simp [fuzzy_match]
    | cons q qs => simp [fuzzy_match]
  | cons c rest ih =>
    cases p with
    | nil =>
      simp only [fuzzy_match]
      rw [ih]
      simp
    | cons q qs =>
      by_cases hcq : c = q
      · subst hcq
        have hstep : fuzzy_match (c :: qs) (c :: rest) = fuzzy_match qs rest := by
          simp [fuzzy_match]
        rw [hstep, ih, List.cons_sublist_cons]
      · simp only [fuzzy_match, if_neg hcq]
        rw [ih]
        constructor
        · intro h
          exact h.cons c
        · intro h
          rcases List.sublist_cons_iff.mp h with h1 | ⟨r, hr, h2⟩
          · exact h1
          · injection hr with he _
            exact absurd he.symm hcq

theorem digitChar_digit {m : Nat} (h : m < 10) : isDigitC (Nat.digitChar m) := by
  interval_cases m <;> decide

theorem toDigitsCore_digits : ∀ (fuel n : Nat) (ds : List Char),
    (∀ ch ∈ ds, isDigitC ch) → ∀ ch ∈ Nat.toDigitsCore 10 fuel n ds, isDigitC ch := by
  intro fuel
  induction fuel with
  | zero =>
    intro n ds hds
    simpa [Nat.toDigitsCore] using hds
  | succ f ih =>
    intro n ds hds ch hch
    simp only [Nat.toDigitsCore] at hch
    by_cases h0 : n / 10 = 0
    · rw [if_pos h0] at hch
      rcases List.mem_cons.mp hch with h1 | h1
      · subst h1
        exact digitChar_digit (Nat.mod_lt _ (by norm_num))
      · exact hds _ h1
    · rw [if_neg h0] at hch
      refine ih _ _ ?_ ch hch
      intro x hx
      rcases List.mem_cons.mp hx with h1 | h1
      · subst h1
        exact digitChar_digit (Nat.mod_lt _ (by norm_num))
      · exact hds _ h1

theorem channelKey_digits (c : Coord) : ∀ ch ∈ channelKey c, isDigitC ch := by
  intro ch hch
  simp only [channelKey, Nat.toDigits] at hch
  rcases List.mem_append.mp hch with h | h
  · exact toDigitsCore_digits _ _ _ (by intro x hx; cases hx) ch h
  · exact toDigitsCore_digits _ _ _ (by intro x hx; cases hx) ch h

theorem toLower_toNat_of_upper {c : Char} (h1 : 65 ≤ c.toNat) (h2 : c.toNat ≤ 90) :
    (Char.toLower c).toNat = c.toNat + 32 := by
  have hv : (c.toNat + 32).isValidChar := Or.inl (by omega)
  simp only [Char.toLower]
  rw [if_pos ⟨h1, h2⟩]
  rw [Char.ofNat, dif_pos hv]
  rfl

theorem toLower_eq_self {c : Char} (h : ¬(65 ≤ c.toNat ∧ c.toNat ≤ 90)) :
    Char.toLower c = c := by
  simp only [Char.toLower]
  rw [if_neg h]

theorem toLower_of_digit {c : Char} (h : isDigitC c) : Char.toLower c = c := by
  apply toLower_eq_self
  intro hcon
  have hd : 48 ≤ c.toNat ∧ c.toNat ≤ 57 := h
  omega

theorem digit_of_toLower_digit {c : Char} (h : isDigitC (Char.toLower c)) : isDigitC c := by
  by_cases hc : 65 ≤ c.toNat ∧ c.toNat ≤ 90
  · have hn := toLower_toNat_of_upper hc.1 hc.2
    have hd : 48 ≤ (Char.toLower c).toNat ∧ (Char.toLower c).toNat ≤ 57 := h
    exact absurd hn (by omega)
  · rwa [toLower_eq_self hc] at h

theorem toLower_idem (c : Char) : Char.toLower (Char.toLower c) = Char.toLower c := by
  by_cases hc : 65 ≤ c.toNat ∧ c.toNat ≤ 90
  · apply toLower_eq_self
    have hn := toLower_toNat_of_upper hc.1 hc.2
    intro hcon
    omega
  · exact congrArg Char.toLower (toLower_eq_self hc)

theorem str_lower_eq_of_digits {q : List Char} (h : ∀ ch ∈ q, isDigitC ch) :
    str_lower q = q := by
  induction q with
  | nil => rfl
  | cons a l ih =>
    simp only [str_lower, List.map_cons]
    rw [toLower_of_digit (h a (List.mem_cons_self a l))]
    have ht := ih (fun ch hch => h ch (List.mem_cons_of_mem a hch))
    simp only [str_lower] at ht
    rw [ht]

theorem lower_sublist_digit_key {q t : List Char} (ht : ∀ ch ∈ t, isDigitC ch) :
    List.Sublist (str_lower q) t ↔ List.Sublist q t := by
  constructor
  · intro h
    have hq : ∀ ch ∈ q, isDigitC ch := by
      intro ch hch
      have hm : Char.toLower ch ∈ t := h.subset (List.mem_map_of_mem Char.toLower hch)
      exact digit_of_toLower_digit (ht _ hm)
    rwa [str_lower_eq_of_digits hq] at h
  · intro h
    have hq : ∀ ch ∈ q, isDigitC ch := fun ch hch => ht ch (h.subset hch)
    rwa [str_lower_eq_of_digits hq]

theorem channel_matches_iff_sublist (q : List Char) (c : Coord) :
    channel_matches (str_lower q) c = true ↔ List.Sublist q (channelKey c) := by
  rw [channel_matches]
  cases q with
  | nil =>
    simp [str_lower, List.nil_sublist]
  | cons a l =>
    have hne : (str_lower (a :: l)).isEmpty = false := rfl
    rw [hne, Bool.false_or, fuzzy_match_iff_sublist]
    exact lower_sublist_digit_key (channelKey_digits c)

/-- C2: for every query and candidate coordinate, the fuzzy filter includes
the candidate iff the query is a subsequence of the candidate's rendered key
(its characters appear in the key in the same relative order); the match is
order-sensitive: `"12"` matches key `"132"` and `"21"` does not. -/
theorem filter_channels_mem_iff_subsequence (chans : List Coord) (q : List Char) (c : Coord) :
    (c ∈ filter_channels chans q ↔ c ∈ chans ∧ List.Sublist q (channelKey c)) ∧
    fuzzy_match ['1', '2'] ['1', '3', '2'] = true ∧
    fuzzy_match ['2', '1'] ['1', '3', '2'] = false := by
  refine ⟨?_, by decide, by decide⟩
  rw [filter_channels, List.mem_filter, channel_matches_iff_sublist]

/-- C5: filtering with the empty query returns every active channel. -/
theorem filter_channels_empty_query (chans : List Coord) :
    filter_channels chans [] = chans := by
  rw [filter_channels]
  apply List.filter_eq_self.mpr
  intro a _
  rfl

/-- C7: filtering the sorted active-channel list `[(1,2),(1,3),(2,1)]` with
query `"13"` returns exactly `[(1,3)]`. -/
theorem filter_channels_scenario :
    filter_channels [Coord.mk 1 2, Coord.mk 1 3, Coord.mk 2 1] ['1', '3'] =
      [Coord.mk 1 3] := by
  decide

/-- C8: channel filtering is case-insensitive in the query — filtering with
`q` returns the same sequence as filtering with the lower-cased form of
`q`. -/
theorem filter_channels_case_insensitive (chans : List Coord) (q : List Char) :
    filter_channels chans q = filter_channels chans (str_lower q) := by
  have hidem : str_lower (str_lower q) = str_lower q := by
    simp only [str_lower, List.map_map, Function.comp_def, toLower_idem]
  rw [filter_channels, filter_channels, hidem]

theorem coord_le_trans (a b c : Coord) :
    coord_le a b = true → coord_le b c = true → coord_le a c = true := by
  simp only [coord_le, Bool.or_eq_true, Bool.and_eq_true, decide_eq_true_eq, beq_iff_eq]
  omega

theorem coord_le_total (a b : Coord) : (coord_le a b || coord_le b a) = true := by
  simp only [coord_le, Bool.or_eq_true, Bool.and_eq_true, decide_eq_true_eq, beq_iff_eq]
  omega

/-- C6: for every query, the filtered sequence is a subsequence of the
sorted channel list built by the viewer (input iteration order, ascending by
`(row, col)`), and is itself sorted the same way — no re-ranking by match
quality. -/
theorem filter_channels_order_stable (active : List Coord) (q : List Char) :
    List.Sublist (filter_channels (all_channels_of active) q) (all_channels_of active) ∧
    (all_channels_of active).Pairwise (fun a b => coord_le a b = true) ∧
    (filter_channels (all_channels_of active) q).Pairwise (fun a b => coord_le a b = true) := by
  have hsorted : (all_channels_of active).Pairwise (fun a b => coord_le a b = true) :=
    List.sorted_mergeSort coord_le_trans coord_le_total active
  exact ⟨List.filter_sublist _, hsorted,
    List.Pairwise.sublist (List.filter_sublist _) hsorted⟩

/-- C10: the rendered key concatenates the row and column digits with no
delimiter, so distinct coordinates can collide — `(1,23)` and `(12,3)` both
render to `"123"` — and the fuzzy filter cannot distinguish coordinates with
equal keys: any search text matches both or neither. -/
theorem channelKey_collision_indistinguishable (c₁ c₂ : Coord)
    (h : channelKey c₁ = channelKey c₂) (s : List Char) :
    channel_matches s c₁ = channel_matches s c₂ ∧
    channelKey (Coord.mk 1 23) = channelKey (Coord.mk 12 3) := by
  constructor
  · rw [channel_matches, channel_matches, h]
  · decide

theorem channelKey_collision_witness :
    channel_matches ['2'] (Coord.mk 1 23) = channel_matches ['2'] (Coord.mk 12 3) ∧
    channelKey (Coord.mk 1 23) = channelKey (Coord.mk 12 3) :=
  channelKey_collision_indistinguishable (Coord.mk 1 23) (Coord.mk 12 3) (by decide) ['2']

/-- C3: looking up any coordinate outside `active_channels` returns the
explicit absent value `none` — a normal return value of a total function,
never an exception, and distinct from a present channel with an empty
signal. -/
theorem get_channel_data_absent (R : ProcessedRecording) (row col : Nat)
    (h : Coord.mk row col ∉ R.active_channels) :
    get_channel_data R row col = none := by
  have hfind : R.channels.find? (fun p => p.1 == Coord.mk row col) = none := by
    apply List.find?_eq_none.mpr
    intro p hp
    simp only [beq_iff_eq]
    intro hpe
    exact h (hpe ▸ List.mem_map_of_mem Prod.fst hp)
  rw [get_channel_data, hfind]
  rfl

theorem get_channel_data_absent_witness :
    Coord.mk 5 5 ∉ absenceSample.active_channels ∧
    get_channel_data absenceSample 5 5 = none :=
  ⟨by decide, get_channel_data_absent absenceSample 5 5 (by decide)⟩

/-- C4: given the other construction invariants, a channel whose signal
length equals the full time-vector length passes validation, while any
channel with more samples than the time vector fails validation with
`DataIntegrityError` — it is never silently accepted. -/
theorem validate_signal_length (R : ProcessedRecording)
    (hsr : 0 < R.sampling_rate) (hrl : 0 < R.recording_length)
    (hnd : R.active_channels.Nodup) :
    ((∀ p ∈ R.channels, p.2.signal.length = R.time_vector.length) →
      validate_recording R = Except.ok ()) ∧
    ((∃ p ∈ R.channels, R.time_vector.length < p.2.signal.length) →
      validate_recording R = Except.error YsaError.DataIntegrityError) := by
  constructor
  · intro hall
    have hv : R.Valid := ⟨hsr, hrl, hnd, fun p hp => le_of_eq (hall p hp)⟩
    rw [validate_recording, if_pos hv]
  · intro hex
    obtain ⟨p, hp, hlen⟩ := hex
    have hnv : ¬ R.Valid := by
      intro hv
      exact absurd (hv.2.2.2 p hp) (by omega)
    rw [validate_recording, if_neg hnv]

theorem validate_signal_length_witness :
    validate_recording boundarySampleOk = Except.ok () ∧
    validate_recording boundarySampleBad = Except.error YsaError.DataIntegrityError := by
  constructor
  · exact (validate_signal_length boundarySampleOk (by decide) (by decide)
      (by decide)).1 (by decide)
  · exact (validate_signal_length boundarySampleBad (by decide) (by decide)
      (by decide)).2 (by decide)

theorem run_update_checks_done (cur : List Char) (nets : List NetOutcome) :
    run_update_checks cur true nets = (true, 0) := by
  induction nets with
  | nil => rfl
  | cons net rest ih =>
    simp [run_update_checks, check_for_updates, ih]

/-- C9: the update check fails silently and runs at most once — an exception
outcome of the network request is swallowed (the call still returns
normally, with no banner), a call with `_update_check_done` already set does
nothing, every call leaves the flag set, and over any sequence of calls the
guarded body runs at most once. -/
theorem update_check_silent_once (cur : List Char) (net : NetOutcome)
    (done : Bool) (nets : List NetOutcome) :
    check_for_updates false cur NetOutcome.exn = (true, true, false) ∧
    check_for_updates true cur net = (true, false, false) ∧
    (check_for_updates done cur net).1 = true ∧
    (run_update_checks cur false nets).2 ≤ 1 := by
  refine ⟨rfl, rfl, ?_, ?_⟩
  · cases done with
    | true => rfl
    | false => cases net <;> rfl
  · cases nets with
    | nil => simp [run_update_checks]
    | cons net1 rest =>
      have h1 : (check_for_updates false cur net1).1 = true := by
        cases net1 <;> rfl
      rw [run_update_checks]
      simp only [h1, run_update_checks_done]
      cases hb : (check_for_updates false cur net1).2.1 <;> simp [hb]

theorem record_of_group_of_record (rec : ChannelRecord) :
    record_of_group (group_of_record rec) = rec := by
  cases rec with
  | mk s sz se dis =>
    simp only [group_of_record, record_of_group, List.map_map]
    have h : row_to_interval ∘ interval_to_row = id := by
      funext iv
      rfl
    rw [h, List.map_id, List.map_id, List.map_id]

theorem find?_group_of_key (l : List (Coord × ChannelRecord))
    (hnd : (l.map Prod.fst).Nodup) (p : Coord × ChannelRecord) (hp : p ∈ l) :
    (l.map (fun x => (x.1, group_of_record x.2))).find? (fun x => x.1 == p.1) =
      some (p.1, group_of_record p.2) := by
  induction l with
  | nil => cases hp
  | cons q rest ih =>
    rw [List.map_cons, List.nodup_cons] at hnd
    rw [List.map_cons]
    rcases List.mem_cons.mp hp with h1 | h1
    · subst h1
      rw [List.find?_cons_of_pos _ (by simp)]
    · have hqne : q.1 ≠ p.1 := by
        intro he
        exact hnd.1 (he ▸ List.mem_map_of_mem Prod.fst h1)
      rw [List.find?_cons,
        show ((q.1, group_of_record q.2).1 == p.1) = false from beq_eq_false_iff_ne.mpr hqne]
      exact ih hnd.2 h1

theorem mapM_keys_ok {E : Type} (f : Coord → Except E (Coord × ChannelRecord)) :
    ∀ (l : List (Coord × ChannelRecord)), (∀ p ∈ l, f p.1 = Except.ok p) →
      (l.map Prod.fst).mapM f = Except.ok l := by
  intro l
  induction l with
  | nil => intro _; rfl
  | cons p rest ih =>
    intro h
    rw [List.map_cons, List.mapM_cons, h p (List.mem_cons_self p rest),
      ih (fun x hx => h x (List.mem_cons_of_mem p hx))]
    rfl

/-- C1: for every valid processed recording `R`, `load(save(R))` succeeds
and returns a recording observationally equal to `R` — the same sampling
rate, recording length and time vector, the same active-channel set, and
for every active channel the same signal sequence and the same seizure,
status-epilepticus and discharge interval sets, in the persisted order. -/
theorem load_save_roundtrip (R : ProcessedRecording) (h : R.Valid) :
    load_processed_data (save_processed_data R) = Except.ok R := by
  have hnd : (R.channels.map Prod.fst).Nodup := h.2.2.1
  have hmapM : (save_processed_data R).active_channels.mapM (fun c =>
      match (save_processed_data R).groups.find? (fun p => p.1 == c) with
      | none => Except.error YsaError.CorruptFileError
      | some p => Except.ok (c, record_of_group p.2)) = Except.ok R.channels := by
    apply mapM_keys_ok
    intro p hp
    have hfind : (save_processed_data R).groups.find? (fun x => x.1 == p.1) =
        some (p.1, group_of_record p.2) := find?_group_of_key R.channels hnd p hp
    rw [hfind]
    show Except.ok (p.1, record_of_group (group_of_record p.2)) = Except.ok p
    rw [record_of_group_of_record]
  have hval : validate_recording ⟨(save_processed_data R).sampling_rate,
      (save_processed_data R).recording_length,
      (save_processed_data R).time_vector, R.channels⟩ = Except.ok () := by
    rw [validate_recording, if_pos]
    exact h
  simp only [load_processed_data, hmapM, hval]
  rfl

theorem load_save_roundtrip_witness :
    roundtripSample.Valid ∧
    load_processed_data (save_processed_data roundtripSample) =
      Except.ok roundtripSample :=
  ⟨by decide, load_save_roundtrip roundtripSample (by decide)⟩
